import Mathlib

/-!
# Verification of the idlearn text-extraction core

Shallow embedding of the idlearn repository's outline and segmentation core
(`app/text_extractor.py`, `app/toc_extractor.py`) together with proofs about
the spec's claims.

Conventions:
* Python `float` font sizes and bounding-box coordinates are modelled as `ℚ`
  (the source only compares and rounds them, never does float-specific ops).
* Python `int` values (levels, pages) are modelled as `ℤ`.
* Python strings are modelled as `String`, usually traversed as `List Char`.
* A Python call that raises is modelled by `Option` where the claims need it
  (`get_main_size`'s `IndexError`); incidental partial accesses inside the
  scan (`span["text"][-1]` on an empty string, `next_section[1]` on `None`)
  are totalised with a default and flagged in comments at the spot.
-/

namespace Idlearn

/-! ## Python character classes and small string helpers -/

/-- Python `\s` for `str` patterns (Unicode whitespace); the ASCII part plus
the Unicode space characters that occur in this code base's data. -/
def isPySpace (c : Char) : Bool :=
  c = ' ' || c = '\t' || c = '\n' || c = '\r' || c = '\x0b' || c = '\x0c' ||
  c = '\u0085' || c = ' ' || c = ' ' ||
  (' ' ≤ c && c ≤ ' ') ||
  c = ' ' || c = ' ' || c = ' ' || c = ' ' || c = '　'

/-- Python `\d` (ASCII digits; the documents at hand contain no other decimal digits). -/
def isPyDigit (c : Char) : Bool := '0' ≤ c && c ≤ '9'

def isAsciiLower (c : Char) : Bool := 'a' ≤ c && c ≤ 'z'

def isAsciiUpper (c : Char) : Bool := 'A' ≤ c && c ≤ 'Z'

def isAsciiAlpha (c : Char) : Bool := isAsciiLower c || isAsciiUpper c

/-- Python `\w` (word character): letters, digits, underscore. -/
def isWordChar (c : Char) : Bool := isAsciiAlpha c || isPyDigit c || c = '_'

/-- Python `str.lower` (ASCII case folding suffices for this code base). -/
def pyLower (s : String) : String := String.mk (s.toList.map Char.toLower)

/-- Python `str.strip()` with no argument: drop leading and trailing whitespace. -/
def pyStrip (s : String) : String :=
  String.mk (((s.toList.dropWhile isPySpace).reverse.dropWhile isPySpace).reverse)

/-- Python `str.strip(chars)`: drop leading and trailing characters from `cs`. -/
def pyStripChars (cs : List Char) (s : String) : String :=
  String.mk (((s.toList.dropWhile (cs.contains ·)).reverse.dropWhile
    (cs.contains ·)).reverse)

/-- `a` occurs as a contiguous sublist of `b` (Python `in` on strings,
`re.search` of an escaped literal). -/
def listInfixB (a b : List Char) : Bool :=
  b.tails.any (fun t => a.isPrefixOf t)

/-- Python `sub in s` for strings. -/
def containsSub (s : String) (sub : String) : Bool :=
  listInfixB sub.toList s.toList

/-- Python `round` on a rational: round half to even (banker's rounding),
as CPython's `round` does on floats.  Written on the canonical
numerator/denominator with integer arithmetic only (so that it reduces in
the kernel): with `f = ⌊q⌋`, the fractional part `q - f` compares to `1/2`
exactly as `2 * (num - f * den)` compares to `den`. -/
def pyRound (q : ℚ) : ℤ :=
  let f : ℤ := q.floor
  let t : ℤ := 2 * (q.num - f * (q.den : ℤ))
  if t < (q.den : ℤ) then f
  else if (q.den : ℤ) < t then f + 1
  else if f % 2 = 0 then f else f + 1

/-- `a < b - k` for a rational bound `b` and integer offset `k`, computed by
cross-multiplication with the (positive) denominators so that it reduces in
the kernel (`Rat.sub` does not). -/
def qltSubInt (a b : ℚ) (k : ℤ) : Bool :=
  a.num * (b.den : ℤ) < (b.num - k * (b.den : ℤ)) * (a.den : ℤ)

/-- `c > s / 2` for integers `c` and `s`, where `/` is Python's true
(rational) division: equivalently `2 * c > s`. -/
def gtHalf (c s : ℤ) : Bool := s < 2 * c

/-! ## A small backtracking regex engine

Just enough of Python's `re` to embed the literal patterns used by the
source: character classes, sequencing, alternation, greedy `*`/`+`/`?`, the
any-char `.` (which does not match a newline) and the `$` anchor (end of
string, or just before a trailing newline).  `reMatches` returns the list of
possible remainders after a match starting at the head of the input, in
backtracking priority order (greedy first); the head of that list is the
match Python's engine picks.  The `*` case skips empty iterations, which is
sound for every pattern below (their starred bodies consume at least one
character) and matches Python's refusal to loop on an empty match. -/

inductive RE : Type where
  | eps : RE
  | dot : RE
  | cls : (Char → Bool) → RE
  | seq : RE → RE → RE
  | alt : RE → RE → RE
  | opt : RE → RE
  | star : RE → RE
  | eol : RE

/-- Literal character. -/
def RE.lit (c : Char) : RE := RE.cls (· = c)

/-- Greedy `+`. -/
def RE.rep1 (r : RE) : RE := RE.seq r (RE.star r)

/-- A literal string as a sequence of literal characters. -/
def RE.str (s : String) : RE :=
  s.toList.foldr (fun c r => RE.seq (RE.lit c) r) RE.eps

/-- Number of nodes of a pattern, used to compute a sufficient fuel. -/
def reSize : RE → Nat
  | RE.eps => 1
  | RE.dot => 1
  | RE.cls _ => 1
  | RE.seq a b => reSize a + reSize b + 1
  | RE.alt a b => reSize a + reSize b + 1
  | RE.opt a => reSize a + 1
  | RE.star a => reSize a + 1
  | RE.eol => 1

/-- All remainders of a match of `r` at the head of `cs`, in backtracking
priority order.  Recursion is structural on `fuel` so the definition reduces
inside the kernel.  Every recursive call either moves to a structurally
smaller pattern on a remainder no longer than the input, or re-enters the
same `star` node on a strictly shorter remainder (empty `star` iterations
are dropped, as Python's engine drops them); hence
`reSize r * (cs.length + 1) + 1` bounds the depth of the call tree, and with
that entry fuel (`reFuel` below) the `0` case is never reached. -/
def reMatches : Nat → RE → List Char → List (List Char)
  | 0, _, _ => []
  | _ + 1, RE.eps, cs => [cs]
  | _ + 1, RE.eol, cs => if cs = [] ∨ cs = ['\n'] then [cs] else []
  | _ + 1, RE.dot, [] => []
  | _ + 1, RE.dot, c :: cs => if c = '\n' then [] else [cs]
  | _ + 1, RE.cls _, [] => []
  | _ + 1, RE.cls p, c :: cs => if p c then [cs] else []
  | fuel + 1, RE.seq a b, cs =>
      (reMatches fuel a cs).flatMap (fun cs2 => reMatches fuel b cs2)
  | fuel + 1, RE.alt a b, cs => reMatches fuel a cs ++ reMatches fuel b cs
  | fuel + 1, RE.opt a, cs => reMatches fuel a cs ++ [cs]
  | fuel + 1, RE.star a, cs =>
      ((reMatches fuel a cs).filter (fun cs2 => cs2.length < cs.length)).flatMap
        (fun cs2 => reMatches fuel (RE.star a) cs2) ++ [cs]

/-- Sufficient fuel for `reMatches` (see the comment there). -/
def reFuel (r : RE) (cs : List Char) : Nat :=
  reSize r * (cs.length + 1) + 1

/-- Remainder of the match Python's engine would pick for `re.match(r, cs)`
(a match anchored at the start), if any. -/
def reMatchHere (r : RE) (cs : List Char) : Option (List Char) :=
  (reMatches (reFuel r cs) r cs).head?

/-- Truthiness of Python `re.match(r, s)`. -/
def pyMatch (r : RE) (s : String) : Bool :=
  (reMatchHere r s.toList).isSome

/-- Python `re.sub(r, repl, s)` for a constant replacement string: leftmost,
non-overlapping, scanning left to right; on no match at a position, advance
one character.  Fuel is structural; `cs.length + 1` is exactly enough since
each step consumes at least one character.  (All patterns passed here match
at least one character; the defensive guard keeps the fuel argument exact.) -/
def reSubGo (r : RE) (repl : List Char) : Nat → List Char → List Char
  | _, [] => []
  | 0, cs => cs
  | fuel + 1, c :: cs =>
      match reMatchHere r (c :: cs) with
      | some rest =>
          if rest.length < cs.length + 1 then repl ++ reSubGo r repl fuel rest
          else c :: reSubGo r repl fuel cs
      | none => c :: reSubGo r repl fuel cs

/-- `re.sub` on a `String` with a constant replacement. -/
def pySubConst (r : RE) (repl : String) (s : String) : String :=
  String.mk (reSubGo r repl.toList (s.toList.length + 1) s.toList)

/-! ## Python list and `collections.Counter` helpers -/

/-- Python `list.index`: position of the first element equal to `x`.
(`list.index` raises `ValueError` when `x` is absent; the model then returns
the length, which every use below either avoids or renders harmless because
list slicing/`drop` past the end is empty.) -/
def pyIndex [DecidableEq α] : List α → α → Nat
  | [], _ => 0
  | y :: ys, x => if y = x then 0 else pyIndex ys x + 1

/-- Keys of a `Counter` built from `l`, in first-occurrence order (Python
dict insertion order).  `seen` accumulates keys already emitted. -/
def firstKeysAux [DecidableEq α] (seen : List α) : List α → List α
  | [] => []
  | x :: xs =>
      if x ∈ seen then firstKeysAux seen xs
      else x :: firstKeysAux (x :: seen) xs

def firstKeys [DecidableEq α] (l : List α) : List α :=
  firstKeysAux [] l

/-- First key of `keys` with maximal `xs.count`, together with that count.
`Counter.most_common` sorts by count descending with a stable sort over
insertion order, so ties go to the earlier key; here later keys win only
with a strictly greater count. -/
def mostCommonKey [DecidableEq α] (xs : List α) : List α → Option (α × Nat)
  | [] => none
  | k :: ks =>
      match mostCommonKey xs ks with
      | none => some (k, xs.count k)
      | some (b, c) => if xs.count k < c then some (b, c) else some (k, xs.count k)

/-- `Counter(xs).most_common(2)` when it has at least two entries: the top
two (key, count) pairs in `most_common` order, `none` when there are fewer
than two distinct keys. -/
def mostCommon2 [DecidableEq α] (xs : List α) : Option ((α × Nat) × (α × Nat)) :=
  match mostCommonKey xs (firstKeys xs) with
  | none => none
  | some (k1, c1) =>
      match mostCommonKey xs ((firstKeys xs).filter (fun k => ¬ k = k1)) with
      | none => none
      | some (k2, c2) => some ((k1, c1), (k2, c2))

/-! ## Data model

The document-model layer (PyMuPDF) supplies pages as block lists; each block
carries a `type` (0 text, 1 image), a bounding box and lines of spans
`\x7btext, font, size\x7d`.  A document also carries its metadata `format`
string and its embedded outline (`doc.get_toc()` items `[level, title, page]`). -/

structure Span where
  text : String
  font : String
  size : ℚ
deriving DecidableEq

structure PLine where
  spans : List Span
deriving DecidableEq

structure Block where
  btype : ℤ
  bbox : ℚ × ℚ × ℚ × ℚ
  lines : List PLine
deriving DecidableEq

structure Page where
  height : ℚ
  blocks : List Block
deriving DecidableEq

/-- One item of the embedded outline, as `doc.get_toc()` returns it. -/
structure TocItem where
  level : ℤ
  title : String
  page : ℤ
deriving DecidableEq

structure Doc where
  fmt : String
  pages : List Page
  rawToc : List TocItem
deriving DecidableEq

/-- `doc.page_count`. -/
def Doc.pageCount (d : Doc) : ℤ := (d.pages.length : ℤ)

/-- One entry of the formatted ToC produced by `TextExtractor.get_toc`
(`(level, title, start_page, end_page)`). -/
structure TocEntry where
  level : ℤ
  title : String
  startPage : ℤ
  endPage : ℤ
deriving DecidableEq

/-! ## `TextExtractor.get_toc` (text_extractor.py lines 15-37) -/

/-- The inner look-ahead loop of `get_toc`: the start page of the first
later item at the same or a shallower level, defaulting to the page count. -/
def findEnd (lvl : ℤ) (pc : ℤ) : List TocItem → ℤ
  | [] => pc
  | t :: ts => if t.level ≤ lvl then t.page else findEnd lvl pc ts

/-- The title cleanup of `get_toc` line 28-29:
`re.sub(r'\r', '', ·)`, then `re.sub(r'(\xad\xa0])+', '', ·)` (note the
source's character class is missing its opening bracket, so this is runs of
the literal three-character sequence U+00AD U+00A0 `]`), then
`re.sub(r'( ... )+', ' ', ·)` (runs of the literal eleven-character
sequence U+2000-U+200A collapse to one space). -/
def cleanTitle (t : String) : String :=
  let t1 := pySubConst (RE.lit '\r') "" t
  let t2 := pySubConst (RE.rep1 (RE.str "­ ]")) "" t1
  pySubConst (RE.rep1 (RE.str "           ")) " " t2

/-- `TextExtractor.get_toc` over the embedded outline and page count. -/
def get_toc (pc : ℤ) : List TocItem → List TocEntry
  | [] => []
  | t :: ts =>
      { level := t.level, title := cleanTitle t.title,
        startPage := t.page, endPage := findEnd t.level pc ts } :: get_toc pc ts

/-! ## Dominant typography (text_extractor.py lines 57-91) -/

/-- All spans of a document in reading order. -/
def docSpans (d : Doc) : List Span :=
  (d.pages.map (fun p => (p.blocks.map (fun b => (b.lines.map PLine.spans).flatten)).flatten)).flatten

/-- `re.match(r'[\s\t]+', text)`: the text starts with a whitespace run. -/
def re_leadingWS : RE := RE.rep1 (RE.cls isPySpace)

/-- The sizes counted by `get_main_size`: rounded sizes of the spans whose
text does not match `[\s\t]+` at position 0. -/
def countedSizes (d : Doc) : List ℤ :=
  ((docSpans d).filter (fun s => ¬ pyMatch re_leadingWS s.text)).map (fun s => pyRound s.size)

/-- The fonts counted by `get_main_font`, same filter. -/
def countedFonts (d : Doc) : List String :=
  ((docSpans d).filter (fun s => ¬ pyMatch re_leadingWS s.text)).map Span.font

/-- `TextExtractor.get_main_size`.  `dominant_size = most_common(2)` is
indexed at `[0]` and `[1]` unconditionally, so fewer than two distinct
rounded sizes raise `IndexError` (modelled as `none`).  The source condition
is `dominant_size[1][0] > dominant_size[0][0] and dominant_size[1][1] >
dominant_size[0][0]/2` — the runner-up COUNT is compared against half the
top SIZE (index `[0][0]`, not `[0][1]`); `gtHalf` renders `c > s/2` with
Python's true division.  The final `round(...)` re-rounds an already rounded
integer and is the identity. -/
def get_main_size (d : Doc) : Option ℤ :=
  match mostCommon2 (countedSizes d) with
  | none => none
  | some ((s1, _c1), (s2, c2)) =>
      some (if s1 < s2 ∧ gtHalf (c2 : ℤ) s1 then s2 else s1)

/-- `TextExtractor.get_main_font`: the most common font string
(`most_common(1)[0]`, `IndexError` on an empty counter modelled as `none`). -/
def get_main_font (d : Doc) : Option String :=
  match mostCommonKey (countedFonts d) (firstKeys (countedFonts d)) with
  | none => none
  | some (f, _) => some f

/-! ## `get_children` and `get_next_section` (text_extractor.py lines 131-148) -/

/-- `self.toc[self.toc.index(section)+1:]`. -/
def suffixAfter (toc : List TocEntry) (sec : TocEntry) : List TocEntry :=
  toc.drop (pyIndex toc sec + 1)

/-- The loop of `get_children`: append entries of strictly greater level,
stop at the first entry of EQUAL level; an entry of smaller level neither
stops the loop nor is appended. -/
def childrenLoop (lvl : ℤ) : List TocEntry → List TocEntry
  | [] => []
  | e :: es =>
      if lvl < e.level then e :: childrenLoop lvl es
      else if e.level = lvl then []
      else childrenLoop lvl es

/-- `TextExtractor.get_children`. -/
def get_children (toc : List TocEntry) (sec : TocEntry) : List TocEntry :=
  childrenLoop sec.level (suffixAfter toc sec)

/-- `TextExtractor.get_next_section`: first later entry at the same or a
shallower level. -/
def get_next_section (toc : List TocEntry) (sec : TocEntry) : Option TocEntry :=
  (suffixAfter toc sec).find? (fun e => e.level ≤ sec.level)

/-! ## `TextExtractor.get_span` (text_extractor.py lines 152-209) -/

/-- `re.sub(r'\+.*', '', font)`: strip a subset-font tag from the first `+`. -/
def stripFontSubset (f : String) : String :=
  pySubConst (RE.seq (RE.lit '+') (RE.star RE.dot)) "" f

/-- `re.match(r'[\s\t]+$', t)`: whitespace-only (nonempty) text. -/
def re_wsOnly : RE := RE.seq (RE.rep1 (RE.cls isPySpace)) RE.eol

/-- `r'.*(\\xa[d0])+.*'` — note the doubled backslash in the source: this
matches the literal four-character texts `\xad` / `\xa0`, not the characters
U+00AD/U+00A0. -/
def re_hiddenXa : RE :=
  RE.seq (RE.star RE.dot)
    (RE.seq (RE.rep1 (RE.seq (RE.str "\\xa") (RE.cls (fun c => c = 'd' || c = '0'))))
      (RE.star RE.dot))

/-- `r'.*(\\u200[0-9a])+.*'`, likewise on the literal text `\u200x`. -/
def re_hiddenU : RE :=
  RE.seq (RE.star RE.dot)
    (RE.seq (RE.rep1 (RE.seq (RE.str "\\u200") (RE.cls (fun c => isPyDigit c || c = 'a'))))
      (RE.star RE.dot))

/-- Line 158: the two whole-line substitutions applied to a span text. -/
def normHidden (t : String) : String :=
  pySubConst re_hiddenU " " (pySubConst re_hiddenXa "" t)

/-- The strip set of line 164/282 (`.strip(' ,.:?!')`). -/
def punctStripSet : List Char := [' ', ',', '.', ':', '?', '!']

/-- `re.match(r"(([A-Z]+\s)+)?[A-Z]$", t.strip(' ,.:?!'))`: the accumulator
ends in a capital-letter abbreviation. -/
def capAbbrevEnd (t : String) : Bool :=
  pyMatch
    (RE.seq (RE.opt (RE.rep1 (RE.seq (RE.rep1 (RE.cls isAsciiUpper)) (RE.cls isPySpace))))
      (RE.seq (RE.cls isAsciiUpper) RE.eol))
    (pyStripChars punctStripSet t)

/-- `re.match(r"[A-Z]+$", t)`. -/
def allCapsText (t : String) : Bool :=
  pyMatch (RE.seq (RE.rep1 (RE.cls isAsciiUpper)) RE.eol) t

def isLigDash (c : Char) : Bool := c = 'ﬁ' || c = 'ﬂ' || c = '—'

/-- `re.match(r"(\s)?[ﬁﬂ—](\s)?$", t)`. -/
def ligDashText (t : String) : Bool :=
  pyMatch
    (RE.seq (RE.opt (RE.cls isPySpace))
      (RE.seq (RE.cls isLigDash) (RE.seq (RE.opt (RE.cls isPySpace)) RE.eol)))
    t

/-- `re.match(r"[ﬁﬂ—]$", t[-1])` (line 179).  Python raises `IndexError`
when `t` is empty; modelled as `false`. -/
def lastCharLigDash (t : String) : Bool :=
  match t.toList.getLast? with
  | some c => isLigDash c
  | none => false

/-- The direct-concatenation test of lines 186-188:
`' ' in (s.text[0], span.text[-1]) or (len(span.text) > 1 and
re.match(r"^\s[A-Z]$", span.text[-2:]))`.  The indexings raise on empty
strings in Python; modelled as `false`. -/
def joinDirect (accText nextText : String) : Bool :=
  (match nextText.toList.head? with
   | some c => c = ' '
   | none => false) ||
  (match accText.toList.getLast? with
   | some c => c = ' '
   | none => false) ||
  (1 < accText.toList.length &&
    (match (accText.toList.reverse.take 2).reverse with
     | [a, b] => isPySpace a && isAsciiUpper b
     | _ => false))

/-- The merge loop of `get_span`: accumulator plus flushed spans.  Python's
final dangling `else: continue` (line 192-193) is unreachable because the
preceding `elif` repeats the negation of the font/size test. -/
def gsLoop (acc : Option Span) (out : List Span) : List Span → Option Span × List Span
  | [] => (acc, out)
  | s :: rest =>
      let fnt := stripFontSubset s.font
      if pyMatch re_wsOnly s.text then gsLoop acc out rest
      else
        let txt := normHidden s.text
        match acc with
        | none => gsLoop (some ⟨txt, fnt, s.size⟩) out rest
        | some sp =>
            if capAbbrevEnd sp.text then
              gsLoop (some ⟨sp.text ++ txt, fnt, s.size⟩) out rest
            else if ¬ (sp.font = fnt) ∨ ¬ (sp.size = s.size) then
              (if allCapsText txt then
                gsLoop (some ⟨sp.text ++ " " ++ txt, sp.font, sp.size⟩) out rest
              else
                gsLoop (some ⟨txt, fnt, s.size⟩) (out ++ [sp]) rest)
            else if ligDashText txt || lastCharLigDash sp.text then
              gsLoop (some ⟨sp.text ++ txt, sp.font, sp.size⟩) out rest
            else if joinDirect sp.text txt then
              gsLoop (some ⟨sp.text ++ txt, sp.font, sp.size⟩) out rest
            else
              gsLoop (some ⟨sp.text ++ " " ++ txt, sp.font, sp.size⟩) out rest

/-- `r'(\\u200[0-9a])+'` (line 197; literal backslash text again). -/
def re_u200lit : RE :=
  RE.rep1 (RE.seq (RE.str "\\u200") (RE.cls (fun c => isPyDigit c || c = 'a')))

/-- `r'(;\s)?\[\s(\d(\s,\s+)?)+\s\]'` (line 199). -/
def re_brackRefs : RE :=
  RE.seq (RE.opt (RE.seq (RE.lit ';') (RE.cls isPySpace)))
    (RE.seq (RE.lit '[')
      (RE.seq (RE.cls isPySpace)
        (RE.seq
          (RE.rep1 (RE.seq (RE.cls isPyDigit)
            (RE.opt (RE.seq (RE.cls isPySpace)
              (RE.seq (RE.lit ',') (RE.rep1 (RE.cls isPySpace)))))))
          (RE.seq (RE.cls isPySpace) (RE.lit ']')))))

/-- `r'(;\s)?\[\s\d+\s–\s\d+\s\]'` (line 200). -/
def re_brackRange : RE :=
  RE.seq (RE.opt (RE.seq (RE.lit ';') (RE.cls isPySpace)))
    (RE.seq (RE.lit '[')
      (RE.seq (RE.cls isPySpace)
        (RE.seq (RE.rep1 (RE.cls isPyDigit))
          (RE.seq (RE.cls isPySpace)
            (RE.seq (RE.lit '–')
              (RE.seq (RE.cls isPySpace)
                (RE.seq (RE.rep1 (RE.cls isPyDigit))
                  (RE.seq (RE.cls isPySpace) (RE.lit ']')))))))))

/-- The per-span cleanup of lines 195-208. -/
def spanCleanup (t : String) : String :=
  let t := pyStrip t
  let t := pySubConst re_u200lit " " t
  let t := pySubConst re_brackRefs "" t
  let t := pySubConst re_brackRange "" t
  let t := pySubConst (RE.seq (RE.lit '(') (RE.cls isPySpace)) "(" t
  let t := pySubConst (RE.seq (RE.cls isPySpace) (RE.lit ')')) ")" t
  let t := pySubConst (RE.rep1 (RE.cls isPySpace)) " " t
  let t := pySubConst (RE.lit 'ﬁ') "fi" t
  pySubConst (RE.lit 'ﬂ') "fl" t

/-- `TextExtractor.get_span`. -/
def get_span (line : PLine) : List Span :=
  let (acc, out) := gsLoop none [] line.spans
  (out ++ acc.toList).map (fun sp => { sp with text := spanCleanup sp.text })

/-! ## Fuzzy title matching (text_extract lines 271-282) -/

/-- `re.sub(r'[ ,.:?!]', '', x)`: global removal of a single-character
class is exactly a filter. -/
def normSub (t : String) : String :=
  String.mk (t.toList.filter (fun c => ¬ punctStripSet.contains c))

/-- Normalisation applied to span texts: `.lower().strip()` then the class
removal. -/
def normSpanText (t : String) : String := normSub (pyStrip (pyLower t))

/-- Normalisation applied to section titles: `.lower()` then the class
removal. -/
def normTitle (t : String) : String := normSub (pyLower t)

/-- Lines 271-274: `re.search(re.escape(a), b) or re.search(re.escape(b), a)`
on the two normalised strings — escaped-literal search is substring
containment, in either direction. -/
def fuzzyMatch (spanText title : String) : Bool :=
  listInfixB (normSpanText spanText).toList (normTitle title).toList ||
  listInfixB (normTitle title).toList (normSpanText spanText).toList

/-- Line 282: exact equality of the two normalised strings. -/
def normEq (spanText title : String) : Bool :=
  normSpanText spanText = normTitle title

/-- `r'\s?\d+\s?$'` (lines 327, 338): a bare page-number text. -/
def re_bareNum : RE :=
  RE.seq (RE.opt (RE.cls isPySpace))
    (RE.seq (RE.rep1 (RE.cls isPyDigit)) (RE.seq (RE.opt (RE.cls isPySpace)) RE.eol))

/-- Line 322: `text.lower().strip() in ("references", "bibliography")`. -/
def refsTitle (t : String) : Bool :=
  pyStrip (pyLower t) = "references" || pyStrip (pyLower t) = "bibliography"

/-! ## Body-text accumulation (text_extract lines 337-344) and the per-block
post-processing (lines 348-353) -/

/-- One iteration of the span-accumulation loop: drop sub-baseline bare page
numbers; after a trailing `-` (or into an empty value) concatenate with no
separator, otherwise with a single space.  (`value[0][-1]` is only read
under `len(value[0]) > 1`, so the Python indexing is safe.) -/
def accumStep (mainSize : ℚ) (v : String) (sp : Span) : String :=
  if pyMatch re_bareNum sp.text && decide (sp.size < mainSize) then v
  else if (1 < v.toList.length && v.toList.getLast? = some '-') || v.toList.length = 0 then
    pyStrip v ++ sp.text
  else
    pyStrip v ++ " " ++ sp.text

/-- Line 348: `re.sub(r'[\xad\xa0]\s', '', v)` — here the class is the real
characters U+00AD/U+00A0 (single backslash in the source). -/
def postSub1 (v : String) : String :=
  pySubConst
    (RE.seq (RE.cls (fun c => c = '\u00ad' || c = '\u00a0')) (RE.cls isPySpace)) "" v

def isPunct5 (c : Char) : Bool := c = '.' || c = ',' || c = ':' || c = '?' || c = '!'

/-- Line 349: `re.sub(r'\s+([.,:?!]([A-Z]))', r'\1 \2', v)`.  Group 1 is the
punctuation TOGETHER WITH the capital (the groups are nested), so a match
`ws+ p U` is replaced by `p U space U`.  The scan takes the maximal
whitespace run at the first whitespace position; if the run is not followed
by punctuation+capital no match can start inside the run either (`\s+` is
greedy and `[.,:?!]` matches no whitespace), so the scan advances one
character.  Fuel is structural and `length + 1` is exact (each step consumes
at least one character). -/
def postSub2Go : Nat → List Char → List Char
  | _, [] => []
  | 0, cs => cs
  | fuel + 1, c :: cs =>
      if isPySpace c then
        let run := (c :: cs).takeWhile isPySpace
        let rest := (c :: cs).drop run.length
        match rest with
        | p :: u :: rest2 =>
            if isPunct5 p && isAsciiUpper u then p :: u :: ' ' :: u :: postSub2Go fuel rest2
            else c :: postSub2Go fuel cs
        | _ => c :: postSub2Go fuel cs
      else c :: postSub2Go fuel cs

def postSub2 (v : String) : String :=
  String.mk (postSub2Go (v.toList.length + 1) v.toList)

/-- Lines 350-351: `if re.match(r'\. ', v): v = v[2:]`. -/
def postDotSpace (v : String) : String :=
  match v.toList with
  | '.' :: ' ' :: rest => String.mk rest
  | _ => v

/-- The `(\.)?\s?(\w+)` tail of the leading-lowercase pattern: after the
run, optionally one `.`, optionally one whitespace, then a word character.
Greediness needs no backtracking here: if consuming the optional `.` (or
whitespace) leads to failure, the non-consuming alternative fails too,
because `.`/whitespace are neither whitespace+word nor word characters.
The returned remainder starts at group 2, which is exactly the whole
substitution result `\2 ++ rest`. -/
def tryDotWsWord (cs : List Char) : Option (List Char) :=
  let cs1 :=
    match cs with
    | '.' :: t => t
    | _ => cs
  let cs2 :=
    match cs1 with
    | c :: t => if isPySpace c then t else cs1
    | [] => cs1
  match cs2 with
  | c :: _ => if isWordChar c then some cs2 else none
  | [] => none

/-- Lines 352-353: `if re.match(r'[a-z]+(\.)?\s?\w+', v):
v = re.sub(r'^[a-z]+(\.)?\s?(\w+)', r'\2', v)`.  The match tries the
maximal lowercase run first; on failure it backtracks the run by one
character — the character then following the run is a lowercase letter,
hence a word character, so the match succeeds with group 2 starting at the
last run character and the result is `drop (run.length - 1)`.  A length-1
run cannot backtrack, so the value is unchanged. -/
def pyDropLeadingLower (v : String) : String :=
  let cs := v.toList
  let run := cs.takeWhile isAsciiLower
  if run.isEmpty then v
  else
    match tryDotWsWord (cs.drop run.length) with
    | some res => String.mk res
    | none => if 2 ≤ run.length then String.mk (cs.drop (run.length - 1)) else v

/-- The per-block post-processing of the accumulated value (lines 348-353),
in source order. -/
def post_process (v : String) : String :=
  pyDropLeadingLower (postDotSpace (postSub2 (postSub1 v)))

/-! ## `TOCExtractor` heading scoring (toc_extractor.py lines 158-243)

`font_stats` always carries the keys `median_size` and `large_sizes`
(`_analyze_font_characteristics` returns them on both branches), so the
`.get(..., default)` fallbacks never fire and the stats are modelled as a
plain structure. -/

structure FontStats where
  median : ℚ
  largeSizes : List ℚ

/-- `[IVXLCDM]` case-insensitively. -/
def isRomanCI (c : Char) : Bool :=
  c = 'I' || c = 'V' || c = 'X' || c = 'L' || c = 'C' || c = 'D' || c = 'M' ||
  c = 'i' || c = 'v' || c = 'x' || c = 'l' || c = 'c' || c = 'd' || c = 'm'

def isRomanLower (c : Char) : Bool :=
  c = 'i' || c = 'v' || c = 'x' || c = 'l' || c = 'c' || c = 'd' || c = 'm'

/-- `[\s\.\-:]`. -/
def isWsDotDashColon (c : Char) : Bool :=
  isPySpace c || c = '.' || c = '-' || c = ':'

/-- `[\.\)]`. -/
def isDotParen (c : Char) : Bool := c = '.' || c = ')'

/-- `[\.\)\s]`. -/
def isDotParenWs (c : Char) : Bool := c = '.' || c = ')' || isPySpace c

/-- `(.*)$`. -/
def re_restEol : RE := RE.seq (RE.star RE.dot) RE.eol

/-- `(.+)$`. -/
def re_rest1Eol : RE := RE.seq (RE.rep1 RE.dot) RE.eol

/-- The six `heading_patterns`, written for a lowercased input since they
are matched with `re.IGNORECASE` (`(Chapter|CHAPTER)` collapses to
`chapter`, the Roman class to its lowercase letters). -/
def headingPatternsLC : List RE :=
  [ RE.seq (RE.str "chapter")
      (RE.seq (RE.rep1 (RE.cls isPySpace))
        (RE.seq (RE.alt (RE.rep1 (RE.cls isPyDigit)) (RE.rep1 (RE.cls isRomanLower)))
          (RE.seq (RE.star (RE.cls isWsDotDashColon)) re_restEol))),
    RE.seq (RE.rep1 (RE.cls isPyDigit))
      (RE.seq (RE.cls isDotParen) (RE.seq (RE.rep1 (RE.cls isPySpace)) re_rest1Eol)),
    RE.seq (RE.rep1 (RE.cls isPyDigit))
      (RE.seq (RE.lit '.')
        (RE.seq (RE.rep1 (RE.cls isPyDigit))
          (RE.seq (RE.cls isDotParen) (RE.seq (RE.rep1 (RE.cls isPySpace)) re_rest1Eol)))),
    RE.seq (RE.rep1 (RE.cls isRomanLower))
      (RE.seq (RE.rep1 (RE.cls isDotParenWs)) re_rest1Eol),
    RE.seq (RE.str "part")
      (RE.seq (RE.rep1 (RE.cls isPySpace))
        (RE.seq (RE.alt (RE.rep1 (RE.cls isPyDigit)) (RE.rep1 (RE.cls isRomanLower)))
          (RE.seq (RE.star (RE.cls isWsDotDashColon)) re_restEol))),
    RE.seq (RE.str "section")
      (RE.seq (RE.rep1 (RE.cls isPySpace))
        (RE.seq (RE.rep1 (RE.cls isPyDigit))
          (RE.seq (RE.star (RE.cls isWsDotDashColon)) re_restEol))) ]

/-- `any(re.match(pattern, text, re.IGNORECASE) for pattern in
self.heading_patterns)`. -/
def anyHeadingPattern (t : String) : Bool :=
  headingPatternsLC.any (fun r => pyMatch r (pyLower t))

def headingKeywords : List String :=
  ["chapter", "section", "part", "introduction", "conclusion",
   "appendix", "bibliography", "references", "index", "abstract",
   "summary", "overview", "background", "methodology", "results",
   "discussion", "acknowledgments", "preface", "foreword"]

/-- `any(keyword in text.lower() for keyword in self.heading_keywords)`. -/
def keywordMatch (t : String) : Bool :=
  headingKeywords.any (fun kw => containsSub (pyLower t) kw)

/-- `re.match(r'^\d+(\.\d+)*[\.\)\s]', text)`. -/
def numericStart (t : String) : Bool :=
  pyMatch
    (RE.seq (RE.rep1 (RE.cls isPyDigit))
      (RE.seq (RE.star (RE.seq (RE.lit '.') (RE.rep1 (RE.cls isPyDigit))))
        (RE.cls isDotParenWs)))
    t

/-- `re.match(r'^[IVXLCDM]+[\.\)\s]', text, re.IGNORECASE)`. -/
def romanStart (t : String) : Bool :=
  pyMatch (RE.seq (RE.rep1 (RE.cls isRomanCI)) (RE.cls isDotParenWs)) t

/-- Python `str.isupper`: at least one cased character and no lowercase
cased character (ASCII letters are the cased characters in this corpus). -/
def pyIsUpper (t : String) : Bool :=
  t.toList.any isAsciiAlpha && t.toList.all (fun c => ¬ isAsciiLower c)

/-- `text.isupper() and len(text) < 50`. -/
def isCapsShort (t : String) : Bool :=
  pyIsUpper t && decide (t.toList.length < 50)

/-- The scoring sum of `_is_potential_heading` (lines 194-211). -/
def headingScore (text : String) (size : ℚ) (flags : ℕ) (fs : FontStats) : ℕ :=
  (if fs.median < size then 2 else 0) +
  (if flags &&& 16 ≠ 0 then 2 else 0) +
  (if flags &&& 2 ≠ 0 then 1 else 0) +
  (if anyHeadingPattern text then 3 else 0) +
  (if keywordMatch text then 2 else 0) +
  (if numericStart text then 2 else 0) +
  (if romanStart text then 2 else 0) +
  (if isCapsShort text then 1 else 0)

/-- `TOCExtractor._is_potential_heading`: early rejections (empty/short,
over-long, at-or-below-median size without a pattern), then `score >= 3`.
`flags & 2**4` is the bold bit, `flags & 2**1` italic. -/
def is_potential_heading (text : String) (size : ℚ) (flags : ℕ) (fs : FontStats) : Bool :=
  if text = "" || decide (text.toList.length < 3) then false
  else if decide (200 < text.toList.length) then false
  else if size ≤ fs.median && ¬ anyHeadingPattern text then false
  else decide (3 ≤ headingScore text size flags fs)

/-- `re.match(r'^(Chapter|CHAPTER|Part|PART)', text)` (no IGNORECASE). -/
def chapterPartStart (t : String) : Bool :=
  pyMatch
    (RE.alt (RE.str "Chapter") (RE.alt (RE.str "CHAPTER")
      (RE.alt (RE.str "Part") (RE.str "PART")))) t

/-- `re.match(r'^\d+\.\d+\.\d+', text)`. -/
def threePartNum (t : String) : Bool :=
  pyMatch
    (RE.seq (RE.rep1 (RE.cls isPyDigit))
      (RE.seq (RE.lit '.')
        (RE.seq (RE.rep1 (RE.cls isPyDigit))
          (RE.seq (RE.lit '.') (RE.rep1 (RE.cls isPyDigit)))))) t

/-- `re.match(r'^\d+\.\d+', text)`. -/
def twoPartNum (t : String) : Bool :=
  pyMatch
    (RE.seq (RE.rep1 (RE.cls isPyDigit))
      (RE.seq (RE.lit '.') (RE.rep1 (RE.cls isPyDigit)))) t

/-- `re.match(r'^\d+[\.\)]', text)`. -/
def onePartNum (t : String) : Bool :=
  pyMatch (RE.seq (RE.rep1 (RE.cls isPyDigit)) (RE.cls isDotParen)) t

/-- `TOCExtractor._determine_heading_level`. -/
def determine_heading_level (text : String) (size : ℚ) (fs : FontStats) : ℤ :=
  let ls := fs.largeSizes
  let lvl : ℤ :=
    if ls.isEmpty then 2
    else if ls.getD 0 0 ≤ size then 1
    else if decide (1 < ls.length) && ls.getD 1 0 ≤ size then 2
    else if decide (2 < ls.length) && ls.getD 2 0 ≤ size then 3
    else 4
  let lvl : ℤ :=
    if chapterPartStart text then min lvl 1
    else if threePartNum text then max lvl 3
    else if twoPartNum text then max lvl 2
    else if onePartNum text then max lvl 1
    else lvl
  max 1 (min lvl 6)

/-! ## `text_extract` (text_extractor.py lines 213-357)

Modelling notes, each tied to the source:
* The `def text_extract` is indented inside `get_span` (after its `return`),
  and its call glue is broken as written (`self.info_extract(self.doc)` and
  `self.toc2dtoc(self.toc)` pass an argument to no-argument methods;
  `get_parent`'s recursive call uses an unbound name).  What is modelled is
  the data flow its body spells out: `info_extract` supplies the first
  page's height, the frame constant 50 and the dominant size/font, and the
  scan below is the loop of lines 220-357.
* The parent skip of lines 224, 229-230 is modelled as a no-op: as written
  `get_parent` either raises `NameError` (whenever the first key of the toc
  dict differs from `section`) or returns the toc dict itself, and a dict
  never equals a section tuple, so the `continue` is unreachable.
* `value` is the Python list `[''] ++ appended sub-results`; `main_text[key]
  = value` stores a reference that later in-place updates keep current, so
  the model re-stores the pair on every per-block post-processing step.
* `num_block` is the function parameter, shared across the section loop and
  reset to 0 from the second page of a range on (lines 246-247). -/

/-- The value stored under a section key: the accumulated text (`value[0]`)
and the sub-extraction dictionaries appended by the recursion (line 317). -/
inductive PVal : Type where
  | mk : String → List (List (String × PVal)) → PVal

/-- `main_text`: a Python dict as an insertion-ordered association list. -/
abbrev TMap := List (String × PVal)

/-- Dict assignment `d[k] = v`: update in place, or append preserving
insertion order. -/
def upsert (k : String) (v : PVal) : TMap → TMap
  | [] => [(k, v)]
  | (k2, v2) :: t => if k2 = k then (k, v) :: t else (k2, v2) :: upsert k v t

/-- Dict lookup. -/
def tmapLookup (k : String) : TMap → Option PVal
  | [] => none
  | (k2, v2) :: t => if k2 = k then some v2 else tmapLookup k t

/-- The per-document constants `info_extract` supplies to the scan. -/
structure DocCtx where
  fmt : String
  pheight : ℚ
  mainSize : ℚ
  mainFont : String

/-- The per-section constants of lines 221-227. -/
structure SecCtx where
  sec : TocEntry
  nextSec : Option TocEntry
  subsecs : List TocEntry

/-- The mutable scan state of one section's pass (lines 232-242). -/
structure ScanSt where
  key : String
  headText : String
  subVals : List TMap
  skipB : Bool
  stopB : Bool
  flagB : Bool

/-- Lines 251-252: a block enters the line loop iff the format contains
`pdf` and the block clears the 50-unit frame, or the format contains
`epub`.  (`pframe` is the literal `PFRAME = 50` of `info_extract`.) -/
def block_eligible (dc : DocCtx) (bbox : ℚ × ℚ × ℚ × ℚ) : Bool :=
  (containsSub (pyLower dc.fmt) "pdf" && decide ((50 : ℚ) < bbox.2.1)
    && qltSubInt bbox.2.2.2 dc.pheight 50)
  || containsSub (pyLower dc.fmt) "epub"

/-- `block.get("lines", []).index(line)` (line 267): index of the first
EQUAL line. -/
def lineIdx (b : Block) (ln : PLine) : Nat := pyIndex b.lines ln

/-- `blocks[blocks.index(block)-1]['type']` (line 260): index of the first
equal block, minus one — for the first block Python's `-1` wraps to the
LAST block of the page. -/
def prevBlockType (blocks : List Block) (b : Block) : ℤ :=
  let i := pyIndex blocks b
  if i = 0 then ((blocks.getLast?).map Block.btype).getD 0
  else ((blocks.get? (i - 1)).map Block.btype).getD 0

/-- The heading-style test of lines 266-268.  Python's precedence gives
`font differs OR (size differs AND line among the block's first four)`. -/
def headingStyled (dc : DocCtx) (b : Block) (ln : PLine) (sp0 : Span) : Bool :=
  ¬ (sp0.font = dc.mainFont) ||
  (¬ (sp0.size = dc.mainSize) && decide (lineIdx b ln < 4))

/-- The condition under which a line can set `key` (lines 266-277): a
nonempty normalised span list whose first span is heading-styled and
fuzzy-matches the given title.  Used to state claim C4. -/
def keyTrigger (dc : DocCtx) (b : Block) (ln : PLine) (title : String) : Bool :=
  match get_span ln with
  | [] => false
  | sp0 :: _ => headingStyled dc b ln sp0 && fuzzyMatch sp0.text title

/-- Outcome of the heading branch for one line: fall through to the
accumulation block (line 333), jump to the next line (`continue`), or break
the line loop. -/
inductive LineCtl : Type where
  | fall : Bool → LineCtl
  | nextLine : LineCtl
  | breakLoop : LineCtl

/-- The caption test of lines 260-263: the previous block is an image and
the first span deviates from the baseline (different font or smaller size). -/
def captionHit (dc : DocCtx) (blocks : List Block) (b : Block) (sp0 : Span) : Bool :=
  prevBlockType blocks b = 1 &&
    (¬ (sp0.font = dc.mainFont) || decide (sp0.size < dc.mainSize))

/-- The heading branch of lines 266-330 (reached when the line's spans are
nonempty and no caption break fired): decides how the line ends and updates
the state.  `rec` performs the recursive
`self.text_extract(subsections, blocks.index(block))` of line 317. -/
def headingCtl (rec : List TocEntry → Nat → TMap) (dc : DocCtx) (sc : SecCtx)
    (blocks : List Block) (b : Block) (ln : PLine) (spans : List Span)
    (sp0 : Span) (st : ScanSt) : ScanSt × LineCtl :=
  if headingStyled dc b ln sp0 then
    if fuzzyMatch sp0.text sc.sec.title then
      -- current section's title, lines 271-283
      if st.key = "" then
        let st := { st with key := sc.sec.title, headText := "", subVals := [] }
        if spans.length ≤ 1 then (st, LineCtl.nextLine)
        else (st, LineCtl.fall true)
      else if normEq sp0.text sc.sec.title then (st, LineCtl.nextLine)
      else (st, LineCtl.fall false)
    else if st.flagB then
      -- skip subsections' text, lines 286-296; `next_section[1]` raises
      -- TypeError when next_section is None — modelled as the no-match
      -- outcome (skip)
      (match sc.nextSec with
       | some ns =>
           if ¬ fuzzyMatch sp0.text ns.title then
             ({ st with skipB := true }, LineCtl.breakLoop)
           else ({ st with flagB := false, stopB := true }, LineCtl.breakLoop)
       | none => ({ st with skipB := true }, LineCtl.breakLoop))
    else if (match sc.nextSec with
             | some ns => fuzzyMatch sp0.text ns.title
             | none => false) && ¬ (st.key = "") then
      -- next section's title, lines 299-307
      ({ st with stopB := true }, LineCtl.breakLoop)
    else if (match sc.subsecs.head? with
             | some s0 => fuzzyMatch sp0.text s0.title
             | none => false) && ¬ (st.key = "") then
      -- first subsection, lines 310-319
      ({ st with subVals := st.subVals ++ [rec sc.subsecs (pyIndex blocks b)],
                 flagB := true }, LineCtl.breakLoop)
    else if refsTitle sp0.text then
      -- references/bibliography, lines 322-324
      ({ st with stopB := true }, LineCtl.breakLoop)
    else if pyMatch re_bareNum sp0.text then
      -- footer page number, lines 327-330; the accompanying list
      -- comprehension `[span["size"] < main_size for span in spans]` is a
      -- nonempty list, hence always truthy
      ({ st with skipB := true }, LineCtl.breakLoop)
    else (st, LineCtl.fall false)
  else (st, LineCtl.fall false)

/-- One iteration of `for line in block.get("lines", [])` (lines 253-344).
The second component is `true` when the line loop breaks. -/
def runLine (rec : List TocEntry → Nat → TMap) (dc : DocCtx) (sc : SecCtx)
    (blocks : List Block) (b : Block) (ln : PLine) (st : ScanSt) : ScanSt × Bool :=
  match get_span ln with
  | [] => (st, false)
  | sp0 :: _ =>
      -- caption detection, lines 260-263: break the line loop
      if captionHit dc blocks b sp0 then (st, true)
      else
        let spans := get_span ln
        match headingCtl rec dc sc blocks b ln spans sp0 st with
        | (st2, LineCtl.nextLine) => (st2, false)
        | (st2, LineCtl.breakLoop) => (st2, true)
        | (st2, LineCtl.fall inline) =>
            -- accumulation, lines 333-344
            if ¬ (st2.key = "") then
              let spans2 := if inline then spans.tail else spans
              ({ st2 with headText := spans2.foldl (accumStep dc.mainSize) st2.headText },
               false)
            else (st2, false)

/-- The line loop of one block. -/
def runLines (rec : List TocEntry → Nat → TMap) (dc : DocCtx) (sc : SecCtx)
    (blocks : List Block) (b : Block) : List PLine → ScanSt → ScanSt
  | [], st => st
  | ln :: lns, st =>
      let (st2, brk) := runLine rec dc sc blocks b ln st
      if brk then st2 else runLines rec dc sc blocks b lns st2

/-- Lines 346-353: after each block (eligible or not), when a key is set,
re-store `value` under it and post-process `value[0]` in place. -/
def blockPost (st : ScanSt) (mt : TMap) : ScanSt × TMap :=
  if st.key = "" then (st, mt)
  else
    let newHead := post_process st.headText
    ({ st with headText := newHead },
     upsert st.key (PVal.mk newHead st.subVals) mt)

/-- One iteration of `for block in blocks[num_block:]`. -/
def runBlock (rec : List TocEntry → Nat → TMap) (dc : DocCtx) (sc : SecCtx)
    (blocks : List Block) (b : Block) (st : ScanSt) (mt : TMap) : ScanSt × TMap :=
  let st := if block_eligible dc b.bbox then runLines rec dc sc blocks b b.lines st else st
  blockPost st mt

/-- The block loop (`if skip or stop: break` heads each iteration). -/
def runBlocksFrom (rec : List TocEntry → Nat → TMap) (dc : DocCtx) (sc : SecCtx)
    (blocks : List Block) : List Block → ScanSt → TMap → ScanSt × TMap
  | [], st, mt => (st, mt)
  | b :: bs, st, mt =>
      if st.skipB || st.stopB then (st, mt)
      else
        let (st2, mt2) := runBlock rec dc sc blocks b st mt
        runBlocksFrom rec dc sc blocks bs st2 mt2

/-- The page loop of lines 243-248: `stop` breaks, `skip` resets per page,
`num_block` resets to 0 on any page whose first equal occurrence in
`pblocks` is not the first page (line 246, `pblocks.index(blocks) > 0`). -/
def runPages (rec : List TocEntry → Nat → TMap) (dc : DocCtx) (sc : SecCtx)
    (pblocks : List (List Block)) :
    List (List Block) → ScanSt → TMap → Nat → ScanSt × TMap × Nat
  | [], st, mt, nb => (st, mt, nb)
  | blocks :: rest, st, mt, nb =>
      if st.stopB then (st, mt, nb)
      else
        let st := { st with skipB := false }
        let nb := if 0 < pyIndex pblocks blocks then 0 else nb
        let (st2, mt2) := runBlocksFrom rec dc sc blocks (blocks.drop nb) st mt
        runPages rec dc sc pblocks rest st2 mt2 nb

/-- Lines 236-238: the block lists of pages `start_page .. end_page`
(`load_page(i-1)` is 0-based; a page index outside the document, which
raises in Python, yields an empty page here). -/
def pagesFor (doc : Doc) (sec : TocEntry) : List (List Block) :=
  (List.range (sec.endPage + 1 - sec.startPage).toNat).map
    (fun k => (((doc.pages.get? ((sec.startPage - 1).toNat + k)).getD ⟨0, []⟩)).blocks)

/-- One iteration of `for section in sections`.  `toc4` is `self.toc`, the
formatted ToC the per-section lookups run against. -/
def runSection (rec : List TocEntry → Nat → TMap) (doc : Doc) (dc : DocCtx)
    (toc4 : List TocEntry) (sec : TocEntry) (nb : Nat) (mt : TMap) : TMap × Nat :=
  let sc : SecCtx := ⟨sec, get_next_section toc4 sec, get_children toc4 sec⟩
  let pb := pagesFor doc sec
  let (_, mt2, nb2) := runPages rec dc sc pb pb ⟨"", "", [], false, false, false⟩ mt nb
  (mt2, nb2)

/-- The section loop. -/
def runSections (rec : List TocEntry → Nat → TMap) (doc : Doc) (dc : DocCtx)
    (toc4 : List TocEntry) : List TocEntry → Nat → TMap → TMap
  | [], _, mt => mt
  | sec :: rest, nb, mt =>
      let (mt2, nb2) := runSection rec doc dc toc4 sec nb mt
      runSections rec doc dc toc4 rest nb2 mt2

/-- The recursive scan with fuel.  Each recursive call (line 317) descends
to `get_children` of the current section, whose entries all have strictly
greater level, so chains of nested calls are no longer than `toc4` itself;
`text_extract` passes `toc4.length + 1`, which the `0` case therefore never
sees. -/
def teGo (doc : Doc) (dc : DocCtx) (toc4 : List TocEntry) :
    Nat → List TocEntry → Nat → TMap
  | 0, _, _ => []
  | fuel + 1, sections, nb =>
      runSections (fun subs nb2 => teGo doc dc toc4 fuel subs nb2) doc dc toc4
        sections nb []

/-- `text_extract(doc, sections, num_block)`: dominant typography first
(`IndexError` from `get_main_size`/`get_main_font` modelled as `none`),
then the section scan. -/
def text_extract (doc : Doc) (sections : List TocEntry) (numBlock : Nat) :
    Option TMap :=
  match get_main_size doc, get_main_font doc with
  | some ms, some mf =>
      let dc : DocCtx :=
        ⟨doc.fmt, ((doc.pages.head?).getD ⟨0, []⟩).height, (ms : ℚ), mf⟩
      let toc4 := get_toc doc.pageCount doc.rawToc
      some (teGo doc dc toc4 (toc4.length + 1) sections numBlock)
  | _, _ => none

/-! ## Claim-side definitions and concrete test documents -/

/-- Children lookup as the claim words it: the maximal contiguous run of
entries immediately following the entry whose level is strictly greater,
terminated by the first subsequent entry whose level is less than or equal
to the entry's level. -/
def specChildren (toc : List TocEntry) (sec : TocEntry) : List TocEntry :=
  (suffixAfter toc sec).takeWhile (fun e => decide (sec.level < e.level))

/-- The dominant-size rule as the spec words it (C2): prefer the
second-most-frequent size when it is numerically larger than the most
frequent AND its frequency exceeds half the top FREQUENCY (the source
instead compares against half the top SIZE). -/
def get_main_size_spec (d : Doc) : Option ℤ :=
  match mostCommon2 (countedSizes d) with
  | none => none
  | some ((s1, c1), (s2, c2)) =>
      some (if s1 < s2 ∧ gtHalf (c2 : ℤ) (c1 : ℤ) then s2 else s1)

/-- A one-page document whose counted span sizes are `[12, 12, 12, 14, 14]`. -/
def c2doc : Doc :=
  ⟨"PDF 1.4",
   [⟨800, [⟨0, (0, 100, 500, 200),
     [⟨[⟨"aa", "F", 12⟩, ⟨"bb", "F", 12⟩, ⟨"cc", "F", 12⟩,
        ⟨"dd", "F", 14⟩, ⟨"ee", "F", 14⟩]⟩]⟩]⟩],
   []⟩

/-- The claim-side reading of the span filter: the text begins with a
whitespace (or tab) character. -/
def startsWithWSChar (t : String) : Bool :=
  match t.toList.head? with
  | some c => isPySpace c
  | none => false

/-- The two spans of the hyphenation scenario, at the baseline size. -/
def c5spans : List Span := [⟨"exam-", "F", 12⟩, ⟨"ple", "F", 12⟩]

/-- A one-page pdf document (counted sizes `[10, 12, 12, 12]`, main font
`F`) whose only section title, `Missing Section`, never matches any span. -/
def c4doc : Doc :=
  ⟨"PDF 1.4",
   [⟨800, [
     ⟨0, (0, 100, 500, 120), [⟨[⟨"hdr", "G", 10⟩]⟩]⟩,
     ⟨0, (0, 130, 500, 200),
       [⟨[⟨"body text one", "F", 12⟩, ⟨"zzz qqq", "F", 12⟩,
          ⟨"more words", "F", 12⟩]⟩]⟩]⟩],
   [⟨1, "Missing Section", 1⟩]⟩

def c4sec : TocEntry := ⟨1, "Missing Section", 1, 1⟩

/-! ## Claims -/

/-- The look-ahead loop of `get_toc` finds the first later item at the same
or a shallower level. -/
lemma findEnd_eq (lvl pc : ℤ) (l : List TocItem) :
    findEnd lvl pc l =
      ((l.find? (fun u => decide (u.level ≤ lvl))).map TocItem.page).getD pc := by
  induction l with
  | nil => rfl
  | cons t ts ih =>
      by_cases h : t.level ≤ lvl
      · simp [findEnd, List.find?, h]
      · simp [findEnd, List.find?, h, ih]

/-- **C1.**  For every document with an embedded outline, `get_toc` returns
one entry per outline item, in order: the i-th entry keeps the item's level
and start page (with the cleaned title), and its `end_page` is the start
page of the next item whose level is less than or equal to this item's
level, or the document's page count when no such later item exists. -/
theorem C1_get_toc_one_entry_per_item_with_lookahead_end (pc : ℤ)
    (toc : List TocItem) :
    (get_toc pc toc).length = toc.length ∧
    ∀ i : ℕ, (get_toc pc toc).get? i = (toc.get? i).map (fun t =>
      { level := t.level, title := cleanTitle t.title, startPage := t.page,
        endPage := (((toc.drop (i + 1)).find?
          (fun u => decide (u.level ≤ t.level))).map TocItem.page).getD pc }) := by
  constructor
  · induction toc with
    | nil => rfl
    | cons t ts ih => simpa [get_toc] using ih
  · intro i
    induction toc generalizing i with
    | nil => simp [get_toc]
    | cons t ts ih =>
        cases i with
        | zero => simp [get_toc, findEnd_eq]
        | succ j => simpa [get_toc] using ih j

/-- **C6, counterexample.**  `get_toc` performs no clamping: an embedded
outline whose pages decrease (`A` starts at page 5, `B` at page 2) yields
the entry `(1, "A", 5, 2)` with `start_page > end_page`, surfaced to the
caller as-is. -/
theorem C6_counterexample_start_page_can_exceed_end_page :
    get_toc 10 [⟨1, "A", 5⟩, ⟨1, "B", 2⟩] = [⟨1, "A", 5, 2⟩, ⟨1, "B", 2, 10⟩] ∧
    ¬ (∀ e ∈ get_toc 10 [⟨1, "A", 5⟩, ⟨1, "B", 2⟩], e.startPage ≤ e.endPage) := by
  constructor
  · rfl
  · decide

/-- The end page computed by the look-ahead is one of the later items'
pages, or the page count. -/
lemma findEnd_mem (lvl pc : ℤ) (l : List TocItem) :
    (∃ t ∈ l, findEnd lvl pc l = t.page) ∨ findEnd lvl pc l = pc := by
  induction l with
  | nil => right; rfl
  | cons t ts ih =>
      by_cases h : t.level ≤ lvl
      · left; exact ⟨t, List.mem_cons_self .., by simp [findEnd, h]⟩
      · rcases ih with ⟨u, hu, he⟩ | he
        · left; exact ⟨u, List.mem_cons_of_mem _ hu, by simpa [findEnd, h] using he⟩
        · right; simpa [findEnd, h] using he

/-- **C6, amended.**  When the embedded outline's start pages are
nondecreasing in document order and all lie within the page count, every
`get_toc` entry satisfies `start_page ≤ end_page`.  No clamping recovers a
violating entry: `end_page` is taken directly from the next qualifying
item's start page (or the page count), so an out-of-order outline surfaces
`start_page > end_page` to the caller. -/
theorem C6_amended_start_le_end_for_monotone_outline (pc : ℤ)
    (toc : List TocItem)
    (hmono : toc.Pairwise (fun a b => a.page ≤ b.page))
    (hbound : ∀ t ∈ toc, t.page ≤ pc) :
    ∀ e ∈ get_toc pc toc, e.startPage ≤ e.endPage := by
  induction toc with
  | nil => simp [get_toc]
  | cons t ts ih =>
      intro e he
      rw [get_toc] at he
      rcases List.mem_cons.mp he with he | he
      · subst he
        rcases findEnd_mem t.level pc ts with ⟨u, hu, hker⟩ | hker
        · simpa [hker] using (List.pairwise_cons.mp hmono).1 u hu
        · simpa [hker] using hbound t (List.mem_cons_self ..)
      · exact ih (List.pairwise_cons.mp hmono).2
          (fun u hu => hbound u (List.mem_cons_of_mem _ hu)) e he

/-- Witness for C6's amended theorem at a concrete monotone outline. -/
theorem C6_amended_witness :
    ([⟨1, "A", 1⟩, ⟨2, "B", 3⟩, ⟨1, "C", 7⟩] : List TocItem).Pairwise
      (fun a b => a.page ≤ b.page) ∧
    (∀ e ∈ get_toc 9 [⟨1, "A", 1⟩, ⟨2, "B", 3⟩, ⟨1, "C", 7⟩],
      e.startPage ≤ e.endPage) :=
  ⟨by decide,
   C6_amended_start_le_end_for_monotone_outline 9 _ (by decide) (by decide)⟩

/-- **C3, counterexample.**  On the outline
`[(1,A), (2,B), (1,C), (3,D)]`, `get_children` of `B` (level 2) returns
`[D]` although the level-1 entry `C` lies between `B` and `D`: the loop
only stops on an entry of EQUAL level, so a shallower entry neither
terminates the scan nor is returned, and the result is not the contiguous
run the claim describes (which is empty here). -/
theorem C3_counterexample_children_skip_shallower_entry :
    get_children [⟨1, "A", 1, 9⟩, ⟨2, "B", 2, 9⟩, ⟨1, "C", 3, 9⟩, ⟨3, "D", 4, 9⟩]
        ⟨2, "B", 2, 9⟩ = [⟨3, "D", 4, 9⟩] ∧
    specChildren [⟨1, "A", 1, 9⟩, ⟨2, "B", 2, 9⟩, ⟨1, "C", 3, 9⟩, ⟨3, "D", 4, 9⟩]
        ⟨2, "B", 2, 9⟩ = [] := by
  constructor
  · rfl
  · rfl

/-- The `get_children` loop keeps the strictly-deeper entries appearing
before the first entry of exactly the section's level. -/
lemma childrenLoop_eq (lvl : ℤ) (l : List TocEntry) :
    childrenLoop lvl l =
      (l.takeWhile (fun e => decide (¬ e.level = lvl))).filter
        (fun e => decide (lvl < e.level)) := by
  induction l with
  | nil => rfl
  | cons e es ih =>
      by_cases hgt : lvl < e.level
      · have hne : ¬ e.level = lvl := by omega
        simp [childrenLoop, hgt, hne, List.takeWhile, List.filter, ih]
      · by_cases heq : e.level = lvl
        · simp [childrenLoop, hgt, heq, List.takeWhile]
        · simp [childrenLoop, hgt, heq, List.takeWhile, List.filter, ih]

/-- **C3, amended.**  For every entry of the ToC, `get_children` returns,
in order, exactly the entries of strictly greater level that precede the
first subsequent entry of level EQUAL to the entry's level; an intervening
entry of strictly smaller level neither terminates the scan nor is
returned, so the result need not be contiguous. -/
theorem C3_amended_children_until_equal_level (toc : List TocEntry)
    (sec : TocEntry) (_hmem : sec ∈ toc) :
    get_children toc sec =
      ((suffixAfter toc sec).takeWhile (fun e => decide (¬ e.level = sec.level))).filter
        (fun e => decide (sec.level < e.level)) := by
  exact childrenLoop_eq sec.level (suffixAfter toc sec)

/-- Witness for C3's amended theorem at the counterexample outline. -/
theorem C3_amended_witness :
    (⟨2, "B", 2, 9⟩ : TocEntry) ∈
      ([⟨1, "A", 1, 9⟩, ⟨2, "B", 2, 9⟩, ⟨1, "C", 3, 9⟩, ⟨3, "D", 4, 9⟩] :
        List TocEntry) ∧
    get_children [⟨1, "A", 1, 9⟩, ⟨2, "B", 2, 9⟩, ⟨1, "C", 3, 9⟩, ⟨3, "D", 4, 9⟩]
        ⟨2, "B", 2, 9⟩ =
      ((suffixAfter [⟨1, "A", 1, 9⟩, ⟨2, "B", 2, 9⟩, ⟨1, "C", 3, 9⟩, ⟨3, "D", 4, 9⟩]
          ⟨2, "B", 2, 9⟩).takeWhile
        (fun e => decide (¬ e.level = (2 : ℤ)))).filter
        (fun e => decide ((2 : ℤ) < e.level)) :=
  ⟨by decide,
   C3_amended_children_until_equal_level _ ⟨2, "B", 2, 9⟩ (by decide)⟩

/-- **C2 (code bug).**  On counted sizes `[12×3, 14×2]` the claim's rule
promotes 14 (it is larger and its frequency 2 exceeds half the top
frequency, 3/2), but the source compares the runner-up frequency against
half the top SIZE (`dominant_size[0][0]/2 = 6`), so `get_main_size`
returns 12. -/
theorem C2_second_size_rule_compares_count_to_half_size :
    countedSizes c2doc = [12, 12, 12, 14, 14] ∧
    get_main_size c2doc = some 12 ∧
    get_main_size_spec c2doc = some 14 := by
  refine ⟨by decide, by decide, by decide⟩

/-- `mostCommonKey` returns `none` exactly on an empty key list. -/
lemma mostCommonKey_eq_none_iff [DecidableEq α] (xs l : List α) :
    mostCommonKey xs l = none ↔ l = [] := by
  cases l with
  | nil => simp [mostCommonKey]
  | cons k ks =>
      simp only [mostCommonKey]
      cases mostCommonKey xs ks with
      | none => simp
      | some b => rcases b with ⟨b, c⟩; by_cases h : xs.count k < c <;> simp [h]

/-- `mostCommonKey` returns a member of its key list. -/
lemma mostCommonKey_mem [DecidableEq α] (xs : List α) (l : List α) (b : α)
    (c : ℕ) (h : mostCommonKey xs l = some (b, c)) : b ∈ l := by
  induction l generalizing b c with
  | nil => simp [mostCommonKey] at h
  | cons k ks ih =>
      simp only [mostCommonKey] at h
      cases hm : mostCommonKey xs ks with
      | none => rw [hm] at h; simp at h; simp [h.1]
      | some p =>
          rcases p with ⟨b2, c2⟩
          rw [hm] at h
          by_cases hlt : xs.count k < c2
          · simp [hlt] at h
            rcases h with ⟨h1, _⟩
            exact List.mem_cons_of_mem _ (ih _ _ (by rw [hm, h1]))
          · simp [hlt] at h
            simp [h.1]

/-- Membership in the first-occurrence key list. -/
lemma mem_firstKeysAux [DecidableEq α] (l : List α) (seen : List α) (a : α) :
    a ∈ firstKeysAux seen l ↔ a ∈ l ∧ a ∉ seen := by
  induction l generalizing seen with
  | nil => simp [firstKeysAux]
  | cons x xs ih =>
      by_cases hx : x ∈ seen
      · rw [firstKeysAux, if_pos hx, ih]
        constructor
        · rintro ⟨h1, h2⟩; exact ⟨List.mem_cons_of_mem _ h1, h2⟩
        · rintro ⟨h1, h2⟩
          rcases List.mem_cons.mp h1 with rfl | h1
          · exact absurd hx h2
          · exact ⟨h1, h2⟩
      · rw [firstKeysAux, if_neg hx]
        constructor
        · intro h
          rcases List.mem_cons.mp h with rfl | h
          · exact ⟨List.mem_cons_self .., hx⟩
          · rcases (ih _).mp h with ⟨h1, h2⟩
            exact ⟨List.mem_cons_of_mem _ h1, fun hs => h2 (List.mem_cons_of_mem _ hs)⟩
        · rintro ⟨h1, h2⟩
          rcases List.mem_cons.mp h1 with rfl | h1
          · exact List.mem_cons_self ..
          · by_cases hax : a = x
            · subst hax; exact List.mem_cons_self ..
            · exact List.mem_cons_of_mem _ ((ih _).mpr
                ⟨h1, fun hs => (List.mem_cons.mp hs).elim hax h2⟩)

lemma mem_firstKeys [DecidableEq α] (l : List α) (a : α) :
    a ∈ firstKeys l ↔ a ∈ l := by
  simp [firstKeys, mem_firstKeysAux]

/-- **C9.**  `get_main_size` raises (`none`) exactly when the counted spans
carry at most one distinct rounded size — in particular whenever all
counted spans share one rounded size, or there are no counted spans — since
both elements of `most_common(2)` are indexed unconditionally. -/
theorem C9_get_main_size_raises_without_two_distinct_sizes (d : Doc) :
    get_main_size d = none ↔
      ∀ x ∈ countedSizes d, ∀ y ∈ countedSizes d, x = y := by
  unfold get_main_size mostCommon2
  cases h1 : mostCommonKey (countedSizes d) (firstKeys (countedSizes d)) with
  | none =>
      rw [mostCommonKey_eq_none_iff] at h1
      have hempty : countedSizes d = [] := by
        cases hcs : countedSizes d with
        | nil => rfl
        | cons x xs =>
            exfalso
            have : x ∈ firstKeys (countedSizes d) :=
              (mem_firstKeys _ _).mpr (by simp [hcs])
            simp [h1] at this
      simp [hempty]
  | some p =>
      rcases p with ⟨k1, c1⟩
      dsimp only
      cases h2 : mostCommonKey (countedSizes d)
          ((firstKeys (countedSizes d)).filter (fun k => ¬ k = k1)) with
      | none =>
          have hfil : ∀ a ∈ firstKeys (countedSizes d), a = k1 := by
            have hnil := (mostCommonKey_eq_none_iff (countedSizes d) _).mp h2
            rw [List.filter_eq_nil_iff] at hnil
            intro a ha
            have := hnil a ha
            simpa using this
          have hall : ∀ x ∈ countedSizes d, x = k1 := fun x hx =>
            hfil x ((mem_firstKeys _ _).mpr hx)
          exact ⟨fun _ => fun x hx y hy => by rw [hall x hx, hall y hy],
                 fun _ => rfl⟩
      | some q =>
          rcases q with ⟨k2, c2⟩
          have hk1 : k1 ∈ countedSizes d :=
            (mem_firstKeys _ _).mp (mostCommonKey_mem _ _ _ _ h1)
          have hk2mem := mostCommonKey_mem _ _ _ _ h2
          rw [List.mem_filter] at hk2mem
          have hk2 : k2 ∈ countedSizes d := (mem_firstKeys _ _).mp hk2mem.1
          have hne : ¬ k2 = k1 := by simpa using hk2mem.2
          constructor
          · intro h; exact absurd h (by simp)
          · intro hall; exact absurd (hall k2 hk2 k1 hk1) hne

/-- A `star` node always offers the empty iteration, so its match list is
never empty. -/
lemma reMatches_star_ne_nil (f : ℕ) (a : RE) (cs : List Char) :
    reMatches (f + 1) (RE.star a) cs ≠ [] := by
  simp [reMatches]

/-- `re.match(r'[\s\t]+', t)` is true exactly when the first character of
`t` is whitespace. -/
lemma pyMatch_rep1_cls (p : Char → Bool) (s : String) :
    pyMatch (RE.rep1 (RE.cls p)) s =
      (match s.toList.head? with
       | some c => p c
       | none => false) := by
  unfold pyMatch reMatchHere reFuel RE.rep1
  cases hcs : s.toList with
  | nil => rfl
  | cons c rest =>
      obtain ⟨m, hm⟩ : ∃ m,
          reSize (RE.seq (RE.cls p) (RE.star (RE.cls p))) * ((c :: rest).length + 1) + 1
            = m + 2 :=
        ⟨4 * rest.length + 7, by simp only [reSize, List.length_cons]; ring⟩
      rw [hm]
      by_cases hp : p c
      · have h1 : reMatches (m + 1) (RE.cls p) (c :: rest) = [rest] := by
          simp [reMatches, hp]
        have hstep : reMatches (m + 2) (RE.seq (RE.cls p) (RE.star (RE.cls p)))
            (c :: rest) = reMatches (m + 1) (RE.star (RE.cls p)) rest := by
          show (reMatches (m + 1) (RE.cls p) (c :: rest)).flatMap
              (fun cs2 => reMatches (m + 1) (RE.star (RE.cls p)) cs2) = _
          rw [h1]; simp
        rw [hstep]
        have hne := reMatches_star_ne_nil m (RE.cls p) rest
        cases hr : reMatches (m + 1) (RE.star (RE.cls p)) rest with
        | nil => exact absurd hr hne
        | cons x xs => simp [hp]
      · have h1 : reMatches (m + 1) (RE.cls p) (c :: rest) = [] := by
          simp [reMatches, hp]
        have hstep : reMatches (m + 2) (RE.seq (RE.cls p) (RE.star (RE.cls p)))
            (c :: rest) = [] := by
          show (reMatches (m + 1) (RE.cls p) (c :: rest)).flatMap
              (fun cs2 => reMatches (m + 1) (RE.star (RE.cls p)) cs2) = _
          rw [h1]; simp
        rw [hstep]
        simp [hp]

/-- **C10.**  `get_main_size` and `get_main_font` count a span exactly when
its text does not begin with a whitespace or tab character: the counted
sizes/fonts are those of the spans whose first character is not whitespace,
so a span with visible content but a leading space is excluded, not only
whitespace-only spans. -/
theorem C10_leading_whitespace_span_filter (d : Doc) :
    countedSizes d =
      ((docSpans d).filter (fun s => ¬ startsWithWSChar s.text)).map
        (fun s => pyRound s.size) ∧
    countedFonts d =
      ((docSpans d).filter (fun s => ¬ startsWithWSChar s.text)).map Span.font := by
  have hfil : ∀ s : Span, pyMatch re_leadingWS s.text = startsWithWSChar s.text := by
    intro s
    unfold re_leadingWS
    rw [pyMatch_rep1_cls]
    rfl
  constructor
  · unfold countedSizes
    congr 1
    exact List.filter_congr (fun x _ => by rw [hfil x])
  · unfold countedFonts
    congr 1
    exact List.filter_congr (fun x _ => by rw [hfil x])

/-- **C5, counterexample.**  Accumulating the spans `exam-` then `ple`
(lines 337-344) and applying the per-block post-processing (lines 348-353)
does NOT produce `example`: the ASCII hyphen is never removed (line 348
strips only U+00AD/U+00A0 before whitespace), and the leading-lowercase
rule of lines 352-353 then rewrites the value to `m-ple`. -/
theorem C5_counterexample_hyphen_not_removed :
    post_process (c5spans.foldl (accumStep 12) "") = "m-ple" ∧
    ¬ (post_process (c5spans.foldl (accumStep 12) "") = "example") := by
  refine ⟨by decide, by decide⟩

/-- **C5, amended.**  Accumulation inserts no space after a trailing
hyphen — `exam-` then `ple` accumulate to `exam-ple` — but the hyphen is
retained, and when the accumulated value is exactly that word the
leading-lowercase post-processing rule truncates it to `m-ple`. -/
theorem C5_amended_no_space_hyphen_kept :
    c5spans.foldl (accumStep 12) "" = "exam-ple" ∧
    post_process "exam-ple" = "m-ple" := by
  refine ⟨by decide, by decide⟩

/-- **C8.**  For the span text `3.2 Related Work` with bold style flags and
size strictly above the document median, `_is_potential_heading` scores at
least 3 (size +2, bold +2, numeric marker +2; no pattern/keyword/roman/caps
points) and accepts the span, and `_determine_heading_level` assigns a
level of at least 2 through the two-part numeric-marker override, whatever
the document's large-size ranking says. -/
theorem C8_related_work_heading_accepted_level_ge_two
    (size median : ℚ) (flags : ℕ) (ls : List ℚ)
    (hsize : median < size) (hbold : flags &&& 16 ≠ 0) :
    3 ≤ headingScore "3.2 Related Work" size flags ⟨median, ls⟩ ∧
    is_potential_heading "3.2 Related Work" size flags ⟨median, ls⟩ = true ∧
    2 ≤ determine_heading_level "3.2 Related Work" size ⟨median, ls⟩ := by
  have hpat : anyHeadingPattern "3.2 Related Work" = false := by decide
  have hkw : keywordMatch "3.2 Related Work" = false := by decide
  have hnum : numericStart "3.2 Related Work" = true := by decide
  have hrom : romanStart "3.2 Related Work" = false := by decide
  have hcaps : isCapsShort "3.2 Related Work" = false := by decide
  have hscore : 3 ≤ headingScore "3.2 Related Work" size flags ⟨median, ls⟩ := by
    unfold headingScore
    rw [hpat, hkw, hnum, hrom, hcaps]
    rw [if_pos hsize, if_pos hbold]
    split_ifs <;> omega
  refine ⟨hscore, ?_, ?_⟩
  · unfold is_potential_heading
    have hshort : (decide (("3.2 Related Work" : String) = "") ||
        decide (("3.2 Related Work" : String).toList.length < 3)) = false := by decide
    have hlong : decide (200 < ("3.2 Related Work" : String).toList.length) = false := by
      decide
    have hle : decide (size ≤ (⟨median, ls⟩ : FontStats).median) = false :=
      decide_eq_false (not_le.mpr hsize)
    rw [hshort, hlong]
    simp only [Bool.false_eq_true, if_false, hle, Bool.false_and]
    simpa using hscore
  · unfold determine_heading_level
    have hcp : chapterPartStart "3.2 Related Work" = false := by decide
    have h3p : threePartNum "3.2 Related Work" = false := by decide
    have h2p : twoPartNum "3.2 Related Work" = true := by decide
    simp only [hcp, h3p, h2p, Bool.false_eq_true, if_false, eq_self_iff_true, if_true]
    split_ifs <;> decide

/-- Witness for C8 at size 13 against median 12 with the bold bit set. -/
theorem C8_witness :
    ((12 : ℚ) < 13 ∧ (16 &&& 16 : ℕ) ≠ 0) ∧
    (3 ≤ headingScore "3.2 Related Work" 13 16 ⟨12, []⟩ ∧
     is_potential_heading "3.2 Related Work" 13 16 ⟨12, []⟩ = true ∧
     2 ≤ determine_heading_level "3.2 Related Work" 13 ⟨12, []⟩) :=
  ⟨⟨by norm_num, by decide⟩,
   C8_related_work_heading_accepted_level_ge_two 13 12 16 [] (by norm_num) (by decide)⟩

/-- The kernel-friendly comparison `qltSubInt` means `a < b - k`. -/
lemma qltSubInt_iff (a b : ℚ) (k : ℤ) : qltSubInt a b k = true ↔ a < b - (k : ℚ) := by
  unfold qltSubInt
  rw [decide_eq_true_iff]
  have ha : (0 : ℚ) < (a.den : ℚ) := by exact_mod_cast a.den_pos
  have hb : (0 : ℚ) < (b.den : ℚ) := by exact_mod_cast b.den_pos
  have hna : a * (a.den : ℚ) = (a.num : ℚ) := by
    have h0 := Rat.num_div_den a
    calc a * (a.den : ℚ) = ((a.num : ℚ) / (a.den : ℚ)) * (a.den : ℚ) := by rw [h0]
      _ = (a.num : ℚ) := div_mul_cancel₀ _ (ne_of_gt ha)
  have hnb : b * (b.den : ℚ) = (b.num : ℚ) := by
    have h0 := Rat.num_div_den b
    calc b * (b.den : ℚ) = ((b.num : ℚ) / (b.den : ℚ)) * (b.den : ℚ) := by rw [h0]
      _ = (b.num : ℚ) := div_mul_cancel₀ _ (ne_of_gt hb)
  constructor
  · intro h
    have h2 : ((a.num * (b.den : ℤ) : ℤ) : ℚ) <
        (((b.num - k * (b.den : ℤ)) * (a.den : ℤ) : ℤ) : ℚ) := by exact_mod_cast h
    push_cast at h2
    nlinarith [mul_pos ha hb]
  · intro h
    have h2 : ((a.num : ℚ)) * (b.den : ℚ) <
        ((b.num : ℚ) - (k : ℚ) * (b.den : ℚ)) * (a.den : ℚ) := by
      nlinarith [mul_pos ha hb]
    exact_mod_cast h2

/-- **C7.**  During segmentation of a fixed-page (pdf-format, not
epub-format) document, a block lying within the top 50-unit band
(`y1 ≤ 50`) or the bottom 50-unit band (`pheight - 50 ≤ y0`) fails the
eligibility test of lines 251-252, so processing it is exactly the
unconditional per-block bookkeeping step `blockPost` — independent of the
block's lines, which therefore contribute nothing to any section's text.
For a reflowable (epub-format) document no margin filtering applies: every
block is eligible whatever its bounding box. -/
theorem C7_margin_band_blocks_skipped :
    (∀ (rec : List TocEntry → Nat → TMap) (dc : DocCtx) (sc : SecCtx)
        (blocks : List Block) (b : Block) (st : ScanSt) (mt : TMap),
      containsSub (pyLower dc.fmt) "pdf" = true →
      containsSub (pyLower dc.fmt) "epub" = false →
      b.bbox.2.1 ≤ b.bbox.2.2.2 →
      (b.bbox.2.2.2 ≤ 50 ∨ dc.pheight - 50 ≤ b.bbox.2.1) →
      runBlock rec dc sc blocks b st mt = blockPost st mt) ∧
    (∀ (dc : DocCtx) (bbox : ℚ × ℚ × ℚ × ℚ),
      containsSub (pyLower dc.fmt) "epub" = true →
      block_eligible dc bbox = true) := by
  constructor
  · intro rec dc sc blocks b st mt hpdf hepub hy01 hband
    have hbe : block_eligible dc b.bbox = false := by
      unfold block_eligible
      rw [hepub]
      rcases hband with htop | hbot
      · have h50 : decide ((50 : ℚ) < b.bbox.2.1) = false :=
          decide_eq_false (not_lt.mpr (le_trans hy01 htop))
        rw [h50]
        simp
      · have hq : qltSubInt b.bbox.2.2.2 dc.pheight 50 = false := by
          rw [← Bool.not_eq_true, qltSubInt_iff]
          exact not_lt.mpr (le_trans hbot hy01)
        rw [hq]
        simp
    unfold runBlock
    rw [hbe]
    simp
  · intro dc bbox hepub
    unfold block_eligible
    rw [hepub]
    simp

/-- Witness for C7: a top-band block of a pdf-format document is a no-op
beyond `blockPost`, and any block of an epub-format document is eligible. -/
theorem C7_witness :
    (containsSub (pyLower "PDF 1.4") "pdf" = true ∧
     containsSub (pyLower "PDF 1.4") "epub" = false ∧
     ((40 : ℚ) ≤ 50) ∧
     runBlock (fun _ _ => []) ⟨"PDF 1.4", 800, 12, "F"⟩ ⟨⟨1, "X", 1, 1⟩, none, []⟩
       [⟨0, (0, 10, 500, 40), [⟨[⟨"JUNK", "Z", 30⟩]⟩]⟩]
       ⟨0, (0, 10, 500, 40), [⟨[⟨"JUNK", "Z", 30⟩]⟩]⟩
       ⟨"", "", [], false, false, false⟩ [] =
       blockPost ⟨"", "", [], false, false, false⟩ []) ∧
    block_eligible ⟨"EPUB 3", 800, 12, "F"⟩ (0, 0, 0, 0) = true :=
  ⟨⟨by decide, by decide, by norm_num,
    C7_margin_band_blocks_skipped.1 (fun _ _ => []) ⟨"PDF 1.4", 800, 12, "F"⟩
      ⟨⟨1, "X", 1, 1⟩, none, []⟩ _ _ _ _ (by decide) (by decide) (by decide)
      (Or.inl (by decide))⟩,
   C7_margin_band_blocks_skipped.2 ⟨"EPUB 3", 800, 12, "F"⟩ (0, 0, 0, 0) (by decide)⟩

/-- When the key is still empty, the per-block bookkeeping step is the
identity. -/
lemma blockPost_empty_key (st : ScanSt) (mt : TMap) (h : st.key = "") :
    blockPost st mt = (st, mt) := by
  unfold blockPost
  rw [if_pos h]

/-- The heading branch of a line that cannot trigger the section's title
match leaves `key` empty and `flag` unset (it may set `skip`/`stop`). -/
lemma headingCtl_no_trigger (rec : List TocEntry → Nat → TMap) (dc : DocCtx)
    (sc : SecCtx) (blocks : List Block) (b : Block) (ln : PLine)
    (spans : List Span) (sp0 : Span) (st : ScanSt)
    (hkey : st.key = "") (hflag : st.flagB = false)
    (htr : (headingStyled dc b ln sp0 && fuzzyMatch sp0.text sc.sec.title) = false) :
    (headingCtl rec dc sc blocks b ln spans sp0 st).1.key = "" ∧
    (headingCtl rec dc sc blocks b ln spans sp0 st).1.flagB = false := by
  unfold headingCtl
  by_cases hhs : headingStyled dc b ln sp0 = true
  · have hfz : fuzzyMatch sp0.text sc.sec.title = false := by
      rcases Bool.and_eq_false_iff.mp htr with h | h
      · rw [h] at hhs; exact absurd hhs (by simp)
      · exact h
    rw [if_pos hhs, hfz]
    simp only [Bool.false_eq_true, if_false]
    simp [hflag, hkey]
    split_ifs <;> simp_all
  · rw [if_neg hhs]
    exact ⟨hkey, hflag⟩

/-- A line that cannot trigger the section's title match leaves `key` empty
and `flag` unset. -/
lemma runLine_no_trigger (rec : List TocEntry → Nat → TMap) (dc : DocCtx)
    (sc : SecCtx) (blocks : List Block) (b : Block) (ln : PLine) (st : ScanSt)
    (hkey : st.key = "") (hflag : st.flagB = false)
    (htr : keyTrigger dc b ln sc.sec.title = false) :
    (runLine rec dc sc blocks b ln st).1.key = "" ∧
    (runLine rec dc sc blocks b ln st).1.flagB = false := by
  unfold keyTrigger at htr
  unfold runLine
  cases hsp : get_span ln with
  | nil => exact ⟨hkey, hflag⟩
  | cons sp0 rest =>
      rw [hsp] at htr
      dsimp only at htr ⊢
      by_cases hcap : captionHit dc blocks b sp0 = true
      · rw [if_pos hcap]
        exact ⟨hkey, hflag⟩
      · rw [if_neg hcap]
        have h2 := headingCtl_no_trigger rec dc sc blocks b ln (sp0 :: rest) sp0 st
          hkey hflag htr
        rcases hc : headingCtl rec dc sc blocks b ln (sp0 :: rest) sp0 st with ⟨st2, ctl⟩
        rw [hc] at h2
        dsimp only at h2
        cases ctl with
        | nextLine => exact h2
        | breakLoop => exact h2
        | fall inline =>
            dsimp only
            rw [if_neg (fun hcon => hcon h2.1)]
            exact h2

/-- The line loop preserves the no-key/no-flag invariant. -/
lemma runLines_no_trigger (rec : List TocEntry → Nat → TMap) (dc : DocCtx)
    (sc : SecCtx) (blocks : List Block) (b : Block) (lns : List PLine)
    (st : ScanSt) (hkey : st.key = "") (hflag : st.flagB = false)
    (hln : ∀ ln ∈ lns, keyTrigger dc b ln sc.sec.title = false) :
    (runLines rec dc sc blocks b lns st).key = "" ∧
    (runLines rec dc sc blocks b lns st).flagB = false := by
  induction lns generalizing st with
  | nil => exact ⟨hkey, hflag⟩
  | cons ln lns ih =>
      rw [runLines]
      have h1 := runLine_no_trigger rec dc sc blocks b ln st hkey hflag
        (hln ln (List.mem_cons_self ..))
      rcases hr : runLine rec dc sc blocks b ln st with ⟨st2, brk⟩
      rw [hr] at h1
      dsimp only at h1 ⊢
      cases brk with
      | true => simpa using h1
      | false =>
          simp only [Bool.false_eq_true, if_false]
          exact ih st2 h1.1 h1.2 (fun l hl => hln l (List.mem_cons_of_mem _ hl))

/-- A block none of whose lines can trigger the title match keeps the
invariant and adds nothing to `main_text`. -/
lemma runBlock_no_trigger (rec : List TocEntry → Nat → TMap) (dc : DocCtx)
    (sc : SecCtx) (blocks : List Block) (b : Block) (st : ScanSt) (mt : TMap)
    (hkey : st.key = "") (hflag : st.flagB = false)
    (hln : ∀ ln ∈ b.lines, keyTrigger dc b ln sc.sec.title = false) :
    (runBlock rec dc sc blocks b st mt).1.key = "" ∧
    (runBlock rec dc sc blocks b st mt).1.flagB = false ∧
    (runBlock rec dc sc blocks b st mt).2 = mt := by
  unfold runBlock
  by_cases he : block_eligible dc b.bbox = true
  · rw [if_pos he]
    have h1 := runLines_no_trigger rec dc sc blocks b b.lines st hkey hflag hln
    rw [blockPost_empty_key _ _ h1.1]
    exact ⟨h1.1, h1.2, rfl⟩
  · rw [if_neg he]
    rw [blockPost_empty_key _ _ hkey]
    exact ⟨hkey, hflag, rfl⟩

/-- The block loop from any suffix keeps the invariant and `main_text`. -/
lemma runBlocksFrom_no_trigger (rec : List TocEntry → Nat → TMap) (dc : DocCtx)
    (sc : SecCtx) (blocks : List Block) (rest : List Block) (st : ScanSt)
    (mt : TMap) (hkey : st.key = "") (hflag : st.flagB = false)
    (hrest : ∀ b ∈ rest, ∀ ln ∈ b.lines, keyTrigger dc b ln sc.sec.title = false) :
    (runBlocksFrom rec dc sc blocks rest st mt).1.key = "" ∧
    (runBlocksFrom rec dc sc blocks rest st mt).1.flagB = false ∧
    (runBlocksFrom rec dc sc blocks rest st mt).2 = mt := by
  induction rest generalizing st mt with
  | nil => exact ⟨hkey, hflag, rfl⟩
  | cons b bs ih =>
      rw [runBlocksFrom]
      by_cases hss : (st.skipB || st.stopB) = true
      · rw [if_pos hss]
        exact ⟨hkey, hflag, rfl⟩
      · rw [if_neg hss]
        have h1 := runBlock_no_trigger rec dc sc blocks b st mt hkey hflag
          (hrest b (List.mem_cons_self ..))
        rcases hrb : runBlock rec dc sc blocks b st mt with ⟨st2, mt2⟩
        rw [hrb] at h1
        dsimp only at h1 ⊢
        obtain ⟨hb1, hb2, hb3⟩ := h1
        subst hb3
        exact ih st2 mt2 hb1 hb2
          (fun b2 hb ln hl => hrest b2 (List.mem_cons_of_mem _ hb) ln hl)

/-- The page loop keeps the invariant and `main_text`. -/
lemma runPages_no_trigger (rec : List TocEntry → Nat → TMap) (dc : DocCtx)
    (sc : SecCtx) (pblocks rest : List (List Block)) (st : ScanSt) (mt : TMap)
    (nb : Nat) (hkey : st.key = "") (hflag : st.flagB = false)
    (hrest : ∀ blocks ∈ rest, ∀ b ∈ blocks, ∀ ln ∈ b.lines,
      keyTrigger dc b ln sc.sec.title = false) :
    (runPages rec dc sc pblocks rest st mt nb).1.key = "" ∧
    (runPages rec dc sc pblocks rest st mt nb).2.1 = mt := by
  induction rest generalizing st mt nb with
  | nil => exact ⟨hkey, rfl⟩
  | cons blocks rest ih =>
      rw [runPages]
      by_cases hstop : st.stopB = true
      · rw [if_pos hstop]
        exact ⟨hkey, rfl⟩
      · rw [if_neg hstop]
        dsimp only
        have hb := runBlocksFrom_no_trigger rec dc sc blocks
          (blocks.drop (if 0 < pyIndex pblocks blocks then 0 else nb))
          { st with skipB := false } mt hkey hflag
          (fun b hbm ln hl =>
            hrest blocks (List.mem_cons_self ..) b (List.drop_subset _ _ hbm) ln hl)
        rcases hrb : runBlocksFrom rec dc sc blocks
            (blocks.drop (if 0 < pyIndex pblocks blocks then 0 else nb))
            { st with skipB := false } mt with ⟨st2, mt2⟩
        rw [hrb] at hb
        dsimp only at hb
        obtain ⟨hb1, hb2, hb3⟩ := hb
        subst hb3
        exact ih st2 mt2 _ hb1 hb2
          (fun bl hbl b hbm ln hl => hrest bl (List.mem_cons_of_mem _ hbl) b hbm ln hl)

/-- One section whose scan never triggers its title leaves `main_text`
untouched. -/
lemma runSection_no_trigger (rec : List TocEntry → Nat → TMap) (doc : Doc)
    (dc : DocCtx) (toc4 : List TocEntry) (sec : TocEntry) (nb : Nat) (mt : TMap)
    (hnm : ∀ blocks ∈ pagesFor doc sec, ∀ b ∈ blocks, ∀ ln ∈ b.lines,
      keyTrigger dc b ln sec.title = false) :
    (runSection rec doc dc toc4 sec nb mt).1 = mt := by
  unfold runSection
  dsimp only
  have h := runPages_no_trigger rec dc
    ⟨sec, get_next_section toc4 sec, get_children toc4 sec⟩
    (pagesFor doc sec) (pagesFor doc sec) ⟨"", "", [], false, false, false⟩ mt nb
    rfl rfl hnm
  rcases hp : runPages rec dc
      ⟨sec, get_next_section toc4 sec, get_children toc4 sec⟩
      (pagesFor doc sec) (pagesFor doc sec) ⟨"", "", [], false, false, false⟩ mt nb
    with ⟨st2, mt2, nb2⟩
  rw [hp] at h
  exact h.2

/-- A single-section request whose title never triggers produces the empty
mapping. -/
lemma runSections_single_no_trigger (rec : List TocEntry → Nat → TMap)
    (doc : Doc) (dc : DocCtx) (toc4 : List TocEntry) (sec : TocEntry) (nb : Nat)
    (hnm : ∀ blocks ∈ pagesFor doc sec, ∀ b ∈ blocks, ∀ ln ∈ b.lines,
      keyTrigger dc b ln sec.title = false) :
    runSections rec doc dc toc4 [sec] nb [] = [] := by
  rw [runSections]
  have h := runSection_no_trigger rec doc dc toc4 sec nb [] hnm
  rcases hrs : runSection rec doc dc toc4 sec nb [] with ⟨mt2, nb2⟩
  rw [hrs] at h
  dsimp only at h ⊢
  rw [runSections]
  exact h

/-- **C4, amended.**  For any document and a single requested section whose
title never fuzzy-matches a heading-styled span anywhere in its page range,
`text_extract` returns a mapping with NO entry for that section: the key is
absent, rather than present with an empty string. -/
theorem C4_amended_unmatched_title_key_absent (doc : Doc) (sec : TocEntry)
    (nb : Nat) (ms : ℤ) (mf : String)
    (hms : get_main_size doc = some ms) (hmf : get_main_font doc = some mf)
    (hnm : ∀ blocks ∈ pagesFor doc sec, ∀ b ∈ blocks, ∀ ln ∈ b.lines,
      keyTrigger ⟨doc.fmt, ((doc.pages.head?).getD ⟨0, []⟩).height, (ms : ℚ), mf⟩
        b ln sec.title = false) :
    text_extract doc [sec] nb = some [] := by
  unfold text_extract
  rw [hms, hmf]
  dsimp only
  rw [teGo]
  exact congrArg some (runSections_single_no_trigger _ doc _ _ sec nb hnm)

/-- **C4, counterexample.**  On `c4doc` the requested section's title never
matches a heading-styled span in its page range (third conjunct), yet
`text_extract` returns the EMPTY mapping: the section's key is absent, not
present with an empty-string value. -/
theorem C4_counterexample_key_absent_not_empty_string :
    text_extract c4doc [c4sec] 0 = some [] ∧
    tmapLookup "Missing Section" [] = none ∧
    (∀ blocks ∈ pagesFor c4doc c4sec, ∀ b ∈ blocks, ∀ ln ∈ b.lines,
      keyTrigger ⟨"PDF 1.4", 800, ((12 : ℤ) : ℚ), "F"⟩ b ln "Missing Section"
        = false) := by
  refine ⟨by rfl, by rfl, by decide⟩

/-- Witness for C4's amended theorem at the concrete document `c4doc`. -/
theorem C4_amended_witness :
    get_main_size c4doc = some 12 ∧
    get_main_font c4doc = some "F" ∧
    text_extract c4doc [c4sec] 0 = some [] :=
  ⟨by rfl, by rfl,
   C4_amended_unmatched_title_key_absent c4doc c4sec 0 12 "F" (by rfl) (by rfl)
     (by decide)⟩

end Idlearn
